import Mathlib

set_option autoImplicit false

/-!
Verification development for the native runtime bridge and shadow layout
tree described in spec.md.  The repository sources under src/ contain only
two declaration headers (ScrollViewShadowNode.h and SampleTurboModuleSpec.h);
every function body is absent, so the operational definitions below are
modelled from the spec, faithful to its words, and each such definition says
so in its doc comment.
-/

namespace Bridge

/-! ## Value marshaller: data model -/

/-- Type tags of the NativeValue tagged union from the spec data model:
null, bool, number, string, array, map, function-reference. -/
inductive TypeTag where
  | null
  | bool
  | number
  | string
  | array
  | map
  | funcRef
  deriving DecidableEq

/-- Modelled from the spec: an opaque invocation token wrapping a
function-reference.  It records its own identity (tokId, allocated by the
marshaller) and the underlying scripting function it invokes (target). -/
structure InvocationToken where
  tokId : Nat
  target : Nat
  deriving DecidableEq

/-- What a dynamic function value refers to: either an original scripting
function object, or a wrapper around a native invocation token produced by
marshalling a function-reference back to the scripting side. -/
inductive FuncTarget where
  | script (funId : Nat)
  | wrapper (token : InvocationToken)
  deriving DecidableEq

mutual
/-- The opaque dynamic scripting value representation: null, bool, number
(single canonical double-precision numeric representation, modelled here by
an exact rational carrier), string, array, map, function. -/
inductive DynamicValue where
  | null
  | bool (b : Bool)
  | number (q : Rat)
  | str (s : String)
  | array (elems : DynList)
  | map (entries : DynEntries)
  | func (target : FuncTarget)

/-- Elements of a dynamic array value. -/
inductive DynList where
  | nil
  | cons (head : DynamicValue) (tail : DynList)

/-- Entries of a dynamic map value. -/
inductive DynEntries where
  | nil
  | cons (key : String) (value : DynamicValue) (tail : DynEntries)
end

mutual
/-- NativeValue: tagged union over null, bool, number, string, array, map
and function-reference, where function-reference carries an opaque
invocation token instead of a real pointer. -/
inductive NativeValue where
  | null
  | bool (b : Bool)
  | number (q : Rat)
  | str (s : String)
  | array (elems : NativeList)
  | map (entries : NativeEntries)
  | funcRef (token : InvocationToken)

/-- Elements of a native array value. -/
inductive NativeList where
  | nil
  | cons (head : NativeValue) (tail : NativeList)

/-- Entries of a native map value. -/
inductive NativeEntries where
  | nil
  | cons (key : String) (value : NativeValue) (tail : NativeEntries)
end

/-- The type tag a dynamic value carries. -/
def dynTag : DynamicValue → TypeTag
  | .null => .null
  | .bool _ => .bool
  | .number _ => .number
  | .str _ => .string
  | .array _ => .array
  | .map _ => .map
  | .func _ => .funcRef

mutual
/-- Nesting depth of a dynamic value (a scalar has depth 1; arrays and maps
add one level above their deepest element). -/
def ddepth : DynamicValue → Nat
  | .array xs => ddepthList xs + 1
  | .map es => ddepthEntries es + 1
  | _ => 1

/-- Maximal nesting depth among elements of a dynamic array. -/
def ddepthList : DynList → Nat
  | .nil => 0
  | .cons x xs => max (ddepth x) (ddepthList xs)

/-- Maximal nesting depth among values of a dynamic map. -/
def ddepthEntries : DynEntries → Nat
  | .nil => 0
  | .cons _ v es => max (ddepth v) (ddepthEntries es)
end

/-- Marshalling errors of the value marshaller: a tag mismatch against the
expected tag, or exceeding the fixed recursion-depth bound. -/
inductive MarshalError where
  | mismatch (expected : TypeTag)
  | depthExceeded
  deriving DecidableEq

/-- Modelled from the spec: the fixed recursion-depth limit of the
element-wise conversion.  The spec fixes the existence of the bound, not
its numeric value. -/
def maxMarshalDepth : Nat := 64

mutual
/-- Modelled from the spec: toNative converts a dynamic value to a
NativeValue given the expected tag, failing with a TypeError on tag
mismatch, recursing element-wise into arrays and maps (elements convert by
their own dynamic tag), bounded by a fuel depth counter, and wrapping
function values in a freshly allocated invocation token (the Nat state is
the token allocator counter). -/
def toNativeAux : Nat → DynamicValue → TypeTag → Nat → Except MarshalError (NativeValue × Nat)
  | 0, _, _, _ => .error .depthExceeded
  | _ + 1, .null, .null, ctr => .ok (.null, ctr)
  | _ + 1, .bool b, .bool, ctr => .ok (.bool b, ctr)
  | _ + 1, .number q, .number, ctr => .ok (.number q, ctr)
  | _ + 1, .str s, .string, ctr => .ok (.str s, ctr)
  | fuel + 1, .array xs, .array, ctr =>
    match toNativeList fuel xs ctr with
    | .error e => .error e
    | .ok (ys, ctr1) => .ok (.array ys, ctr1)
  | fuel + 1, .map es, .map, ctr =>
    match toNativeEntries fuel es ctr with
    | .error e => .error e
    | .ok (fs, ctr1) => .ok (.map fs, ctr1)
  | _ + 1, .func (.script f), .funcRef, ctr => .ok (.funcRef ⟨ctr, f⟩, ctr + 1)
  | _ + 1, .func (.wrapper tok), .funcRef, ctr => .ok (.funcRef tok, ctr)
  | _ + 1, _, tag, _ => .error (.mismatch tag)

/-- Element-wise conversion of a dynamic array at the given depth fuel. -/
def toNativeList : Nat → DynList → Nat → Except MarshalError (NativeList × Nat)
  | _, .nil, ctr => .ok (.nil, ctr)
  | fuel, .cons x xs, ctr =>
    match toNativeAux fuel x (dynTag x) ctr with
    | .error e => .error e
    | .ok (y, ctr1) =>
      match toNativeList fuel xs ctr1 with
      | .error e => .error e
      | .ok (ys, ctr2) => .ok (.cons y ys, ctr2)

/-- Entry-wise conversion of a dynamic map at the given depth fuel. -/
def toNativeEntries : Nat → DynEntries → Nat → Except MarshalError (NativeEntries × Nat)
  | _, .nil, ctr => .ok (.nil, ctr)
  | fuel, .cons k v es, ctr =>
    match toNativeAux fuel v (dynTag v) ctr with
    | .error e => .error e
    | .ok (w, ctr1) =>
      match toNativeEntries fuel es ctr1 with
      | .error e => .error e
      | .ok (fs, ctr2) => .ok (.cons k w fs, ctr2)
end

/-- toNative at the fixed depth bound. -/
def toNative (v : DynamicValue) (tag : TypeTag) (ctr : Nat) :
    Except MarshalError (NativeValue × Nat) :=
  toNativeAux maxMarshalDepth v tag ctr

mutual
/-- Modelled from the spec: toDynamic converts a NativeValue back to the
dynamic scripting representation; a function-reference becomes a dynamic
wrapper function around the same invocation token. -/
def toDynamic : NativeValue → DynamicValue
  | .null => .null
  | .bool b => .bool b
  | .number q => .number q
  | .str s => .str s
  | .array xs => .array (toDynamicList xs)
  | .map es => .map (toDynamicEntries es)
  | .funcRef tok => .func (.wrapper tok)

/-- Element-wise toDynamic on native arrays. -/
def toDynamicList : NativeList → DynList
  | .nil => .nil
  | .cons x xs => .cons (toDynamic x) (toDynamicList xs)

/-- Entry-wise toDynamic on native maps. -/
def toDynamicEntries : NativeEntries → DynEntries
  | .nil => .nil
  | .cons k v es => .cons k (toDynamic v) (toDynamicEntries es)
end

mutual
/-- True when a dynamic value contains no function value anywhere. -/
def funcFree : DynamicValue → Bool
  | .func _ => false
  | .array xs => funcFreeList xs
  | .map es => funcFreeEntries es
  | _ => true

/-- funcFree on array elements. -/
def funcFreeList : DynList → Bool
  | .nil => true
  | .cons x xs => funcFree x && funcFreeList xs

/-- funcFree on map entries. -/
def funcFreeEntries : DynEntries → Bool
  | .nil => true
  | .cons _ v es => funcFree v && funcFreeEntries es
end

/-! ## Module registry and invocation bridge

The src tree declares NativeSampleTurboModuleSpecJSI and
SampleTurboModuleSpec_ModuleProvider but carries no bodies; the registry
and the bridge dispatch are modelled from the spec. -/

/-- Return convention of a method: sync, callback or promise. -/
inductive ReturnConvention where
  | sync
  | callback
  | promise
  deriving DecidableEq

/-- MethodDescriptor: method name, ordered parameter type tags, return
convention.  Immutable once registered. -/
structure MethodDescriptor where
  methodName : String
  paramTags : List TypeTag
  convention : ReturnConvention
  deriving DecidableEq

/-- NativeModule: unique name, ordered method descriptors, and a handle to
the owning native implementation object. -/
structure NativeModule where
  moduleName : String
  methods : List MethodDescriptor
  implId : Nat
  deriving DecidableEq

/-- The module registry: named native module instances. -/
abbrev Registry := List NativeModule

/-- Modelled from the spec: resolve a module name and method name to a
typed invocable, a MethodHandle of implementation handle and descriptor;
an unresolved pair yields none (NotFound). -/
def resolve (reg : Registry) (modName methName : String) :
    Option (Nat × MethodDescriptor) :=
  match reg.find? (fun m => m.moduleName == modName) with
  | none => none
  | some m =>
    match m.methods.find? (fun d => d.methodName == methName) with
    | none => none
    | some d => some (m.implId, d)

/-- A (moduleName, methodName) pair resolves to a registered module and
method. -/
def registered (reg : Registry) (modName methName : String) : Prop :=
  ∃ m ∈ reg, m.moduleName = modName ∧ ∃ d ∈ m.methods, d.methodName = methName

/-- The first arity or tag mismatch found when an argument list is checked
against the descriptor: the argument index and the expected tag there
(none when the caller passed more arguments than the descriptor has
parameters). -/
structure ArgFailure where
  index : Nat
  expected : Option TypeTag
  deriving DecidableEq

/-- Modelled from the spec: validate arity and each argument tag against
the descriptor parameter tags, reporting the first failure. -/
def checkArgs : Nat → List TypeTag → List DynamicValue → Option ArgFailure
  | _, [], [] => none
  | i, t :: _, [] => some ⟨i, some t⟩
  | i, [], _ :: _ => some ⟨i, none⟩
  | i, t :: ts, a :: rest =>
    if dynTag a = t then checkArgs (i + 1) ts rest else some ⟨i, some t⟩

/-- The argument list mismatches the descriptor in arity or in some
argument tag. -/
def argsMismatch (ts : List TypeTag) (args : List DynamicValue) : Prop :=
  ts.length ≠ args.length ∨
    ∃ i, ∃ ht : i < ts.length, ∃ ha : i < args.length,
      dynTag (args.get ⟨i, ha⟩) ≠ ts.get ⟨i, ht⟩

/-- Marshal a checked argument list, pairing each argument with its
descriptor tag, threading the token allocator. -/
def marshalArgList : List (TypeTag × DynamicValue) → Nat →
    Except MarshalError (List NativeValue × Nat)
  | [], ctr => .ok ([], ctr)
  | (t, a) :: rest, ctr =>
    match toNative a t ctr with
    | .error e => .error e
    | .ok (n, ctr1) =>
      match marshalArgList rest ctr1 with
      | .error e => .error e
      | .ok (ns, ctr2) => .ok (n :: ns, ctr2)

/-- Errors the bridge reports to the caller before native code runs. -/
inductive InvokeError where
  | notFound
  | argumentError (index : Nat) (expected : Option TypeTag)
  | marshalFailure (e : MarshalError)
  deriving DecidableEq

/-- Observable outcome of an invocation attempt: a synchronous failure, or
the native implementation being called with marshalled arguments. -/
inductive InvokeOutcome where
  | failure (e : InvokeError)
  | nativeCall (implId : Nat) (args : List NativeValue) (convention : ReturnConvention)

/-- Modelled from the spec: invoke resolves the method, validates arity
and argument tags against the descriptor (failing with ArgumentError on
mismatch), marshals the arguments and only then reaches the native
implementation.  The Nat component is the marshaller token allocator
state; a pre-native failure leaves it untouched. -/
def invoke (reg : Registry) (modName methName : String)
    (args : List DynamicValue) (ctr : Nat) : InvokeOutcome × Nat :=
  match resolve reg modName methName with
  | none => (.failure .notFound, ctr)
  | some (implId, d) =>
    match checkArgs 0 d.paramTags args with
    | some f => (.failure (.argumentError f.index f.expected), ctr)
    | none =>
      match marshalArgList (d.paramTags.zip args) ctr with
      | .error e => (.failure (.marshalFailure e), ctr)
      | .ok (ns, ctr1) => (.nativeCall implId ns d.convention, ctr1)

/-! ## Shadow nodes

ScrollViewShadowNode.h declares the ScrollView shadow node as the final
instantiation of ConcreteViewShadowNode at ScrollViewComponentName,
ScrollViewProps, ScrollViewEventEmitter and ScrollViewState, with layout,
getContentOriginOffset (const) and a private updateStateIfNeeded; all
bodies are absent from src.  Following the spec design note, the deep
template and inheritance structure is embedded as a tagged variant over
the component kind.  Reference identity of nodes, which clone sharing is
about, is made explicit by a node store keyed by node ids. -/

/-- Component kinds appearing in the modelled system: the generic view and
the scroll-view container. -/
inductive ComponentKind where
  | view
  | scrollView
  deriving DecidableEq

/-- The component-type tag string of the ScrollView shadow node. -/
def scrollViewComponentName : String := "ScrollView"

/-- The component-type tag carried by each kind. -/
def componentNameOf : ComponentKind → String
  | .view => "View"
  | .scrollView => scrollViewComponentName

/-- Props of a plain view: an immutable value bag, modelled by the fields
layout needs. -/
structure ViewProps where
  width : Int
  height : Int
  deriving DecidableEq

/-- Props of a scroll view. -/
structure ScrollViewProps where
  width : Int
  height : Int
  deriving DecidableEq

/-- Props tagged by component kind. -/
inductive Props where
  | view (p : ViewProps)
  | scroll (p : ScrollViewProps)
  deriving DecidableEq

/-- State of a scroll view: the content offset and content size, versioned
per node and replaceable wholesale. -/
structure ScrollViewState where
  contentOffsetX : Int
  contentOffsetY : Int
  contentWidth : Int
  contentHeight : Int
  deriving DecidableEq

/-- State tagged by component kind; plain views carry no state. -/
inductive StateData where
  | view
  | scroll (s : ScrollViewState)
  deriving DecidableEq

/-- An event-emitter reference, tagged by the emitter type of the owning
component and shared between node revisions. -/
inductive EmitterRef where
  | view (id : Nat)
  | scroll (id : Nat)
  deriving DecidableEq

/-- Node identity in the store: reference semantics of shadow nodes. -/
abbrev NodeId := Nat

/-- One shadow node: component kind, props, state, event emitter and the
ordered children references. -/
structure NodeData where
  kind : ComponentKind
  props : Props
  state : StateData
  emitter : EmitterRef
  children : List NodeId
  deriving DecidableEq

/-- The node store: allocated nodes keyed by id, and the next fresh id. -/
structure NodeStore where
  nodes : List (NodeId × NodeData)
  nextId : NodeId

/-- Look a node up by reference. -/
def NodeStore.lookup (st : NodeStore) (i : NodeId) : Option NodeData :=
  match st.nodes.find? (fun p => p.1 == i) with
  | none => none
  | some p => some p.2

/-- Every allocated id is below the allocator counter. -/
def NodeStore.fresh (st : NodeStore) : Prop :=
  ∀ p ∈ st.nodes, p.1 < st.nextId

/-- Modelled from the spec: cloneWithProps returns a new node instance
sharing everything but the props with the original; the children
reference list is carried over untouched (no copy of any child). -/
def cloneWithProps (st : NodeStore) (i : NodeId) (newProps : Props) :
    Option (NodeStore × NodeId) :=
  match st.lookup i with
  | none => none
  | some d =>
    some (⟨(st.nextId, { d with props := newProps }) :: st.nodes, st.nextId + 1⟩, st.nextId)

/-- Modelled from the spec: cloneWithState replaces the state wholesale,
sharing the children references with the original. -/
def cloneWithState (st : NodeStore) (i : NodeId) (newState : StateData) :
    Option (NodeStore × NodeId) :=
  match st.lookup i with
  | none => none
  | some d =>
    some (⟨(st.nextId, { d with state := newState }) :: st.nodes, st.nextId + 1⟩, st.nextId)

/-- Modelled from the spec: cloneWithChildren installs a new children
reference list; the child nodes themselves are never copied. -/
def cloneWithChildren (st : NodeStore) (i : NodeId) (newChildren : List NodeId) :
    Option (NodeStore × NodeId) :=
  match st.lookup i with
  | none => none
  | some d =>
    some (⟨(st.nextId, { d with children := newChildren }) :: st.nodes, st.nextId + 1⟩, st.nextId)

/-- Construct a ScrollView shadow node: the concrete instantiation fixes
the kind, the props type, the state type and the emitter type. -/
def mkScrollViewNode (st : NodeStore) (p : ScrollViewProps) (s : ScrollViewState)
    (emitterId : Nat) (children : List NodeId) : NodeStore × NodeId :=
  (⟨(st.nextId, ⟨.scrollView, .scroll p, .scroll s, .scroll emitterId, children⟩) :: st.nodes,
    st.nextId + 1⟩, st.nextId)

/-- The typed clone interface of the final ScrollView node class: only
ScrollViewProps can be installed. -/
def scrollCloneWithProps (st : NodeStore) (i : NodeId) (p : ScrollViewProps) :
    Option (NodeStore × NodeId) :=
  cloneWithProps st i (.scroll p)

/-- The typed clone interface of the final ScrollView node class: only
ScrollViewState can be installed. -/
def scrollCloneWithState (st : NodeStore) (i : NodeId) (s : ScrollViewState) :
    Option (NodeStore × NodeId) :=
  cloneWithState st i (.scroll s)

/-- A node carries exactly the concrete component types of its kind: a
scroll-view node has scroll props, scroll state and a scroll emitter, and
a plain view node the view variants. -/
def wellKinded (d : NodeData) : Prop :=
  (d.kind = .scrollView →
    (∃ p, d.props = .scroll p) ∧ (∃ s, d.state = .scroll s) ∧ (∃ e, d.emitter = .scroll e)) ∧
  (d.kind = .view →
    (∃ p, d.props = .view p) ∧ d.state = .view ∧ (∃ e, d.emitter = .view e))

/-- A point in the layout coordinate space. -/
structure Point where
  x : Int
  y : Int
  deriving DecidableEq

/-- Modelled from the spec: getContentOriginOffset, declared const on the
node in src, derives the scroll container content-origin adjustment from
the node state without touching the store.  Member functions are embedded
as store transformers, so const-ness is the store component of the result
being the input store. -/
def getContentOriginOffset (st : NodeStore) (i : NodeId) : NodeStore × Option Point :=
  (st,
    match st.lookup i with
    | some d =>
      match d.state with
      | .scroll s => some ⟨-s.contentOffsetX, -s.contentOffsetY⟩
      | .view => none
    | none => none)

/-! ## Layout

Modelled from the spec: layout is a pure function of the node props and
state, the children geometry and the layout context, computed in two
phases (intrinsic size bottom-up, final frames top-down) with a
component-specific post-layout adjustment hook invoked by kind; for the
scroll container the hook shifts the children origin by the content-origin
offset.  The concrete arithmetic below is a representative instance of
that contract; the bodies are absent from src. -/

mutual
/-- A shadow-node tree as laid out: kind, props, state, the event emitter
and the child subtrees. -/
inductive LTree where
  | node (kind : ComponentKind) (props : Props) (state : StateData)
      (emitter : EmitterRef) (children : LForest)

/-- Children of a layout tree node. -/
inductive LForest where
  | nil
  | cons (head : LTree) (tail : LForest)
end

/-- Layout context input: available constraints, layout direction and the
density scale factor. -/
structure LayoutContext where
  availableWidth : Int
  availableHeight : Int
  rightToLeft : Bool
  scale : Int
  deriving DecidableEq

/-- A frame: origin and size. -/
structure Rect where
  x : Int
  y : Int
  w : Int
  h : Int
  deriving DecidableEq

mutual
/-- Computed geometry of a subtree: the node frame and the children
geometry. -/
inductive GeomTree where
  | node (frame : Rect) (children : GeomForest)

/-- Geometry of a forest of children. -/
inductive GeomForest where
  | nil
  | cons (head : GeomTree) (tail : GeomForest)
end

/-- Declared width of a props bag. -/
def propsWidth : Props → Int
  | .view p => p.width
  | .scroll p => p.width

/-- Declared height of a props bag. -/
def propsHeight : Props → Int
  | .view p => p.height
  | .scroll p => p.height

mutual
/-- Bottom-up phase: the intrinsic size of a node.  A plain view grows to
enclose its stacked children; a scroll container keeps its declared
viewport size regardless of content. -/
def measureT : LTree → Int × Int
  | .node k p _ _ cs =>
    match k with
    | .scrollView => (propsWidth p, propsHeight p)
    | .view => (propsWidth p, max (propsHeight p) (measureF cs))

/-- Total stacked height of a forest of children. -/
def measureF : LForest → Int
  | .nil => 0
  | .cons t rest => (measureT t).2 + measureF rest
end

/-- The post-layout adjustment hook invoked by component kind: the scroll
container shifts its children origin by the content-origin offset derived
from its state; other kinds adjust nothing. -/
def contentOriginOffsetOf (k : ComponentKind) (s : StateData) : Point :=
  match k, s with
  | .scrollView, .scroll s => ⟨-s.contentOffsetX, -s.contentOffsetY⟩
  | _, _ => ⟨0, 0⟩

mutual
/-- Top-down phase: assign final frames, stacking children vertically
inside the parent frame, shifted by the kind adjustment hook. -/
def placeT : LTree → Int → Int → GeomTree
  | .node k p s e cs, x, y =>
    let sz := measureT (.node k p s e cs)
    let off := contentOriginOffsetOf k s
    .node ⟨x, y, sz.1, sz.2⟩ (placeF cs (x + off.x) (y + off.y))

/-- Place a forest of children starting at the given origin. -/
def placeF : LForest → Int → Int → GeomForest
  | .nil, _, _ => .nil
  | .cons t rest, x, y =>
    .cons (placeT t x y) (placeF rest x (y + (measureT t).2))
end

/-- Layout of a whole tree under a context: the root frame starts at the
origin and is clamped to the context constraints. -/
def layoutT (t : LTree) (ctx : LayoutContext) : GeomTree :=
  match placeT t 0 0 with
  | .node f cs => .node ⟨f.x, f.y, min f.w ctx.availableWidth, min f.h ctx.availableHeight⟩ cs

mutual
/-- The layout-relevant view of a tree: props, state and children; the
event emitter and any other identity a node carries are erased. -/
inductive LView where
  | node (kind : ComponentKind) (props : Props) (state : StateData) (children : LVForest)

/-- Layout-relevant view of a forest. -/
inductive LVForest where
  | nil
  | cons (head : LView) (tail : LVForest)
end

mutual
/-- Project a tree to its layout-relevant view. -/
def toView : LTree → LView
  | .node k p s _ cs => .node k p s (toViewF cs)

/-- Project a forest to its layout-relevant view. -/
def toViewF : LForest → LVForest
  | .nil => .nil
  | .cons t rest => .cons (toView t) (toViewF rest)
end

/-! ## Shadow tree commits

Modelled from the spec: a commit runs the mutator against the current
root, and installs the result under an atomic swap only when the base
revision is still the latest; a stale base is retried against the latest
revision by re-running the mutator, bounded by a fixed retry limit, after
which the commit fails with CommitError contention and the tree is left as
the latest committed revision. -/

/-- A shadow tree: a revision counter and the root node. -/
structure ShadowTree where
  revision : Nat
  root : LTree

/-- Shadow tree commit errors. -/
inductive CommitError where
  | contention
  deriving DecidableEq

/-- Modelled from the spec: the fixed retry limit of the optimistic commit
loop.  The spec fixes that the count is bounded and documented, not its
numeric value. -/
def maxCommitRetries : Nat := 3

/-- One optimistic commit loop: the schedule lists, per attempt, the tree
a concurrent committer installed between this attempt reading the base and
trying its atomic swap (the empty remainder means no interference, so the
swap succeeds).  Each attempt re-runs the mutator against the latest
revision; exhausted fuel fails with contention, leaving the latest tree in
place. -/
def runCommit : Nat → (LTree → LTree) → ShadowTree → List ShadowTree →
    Except CommitError Nat × ShadowTree
  | 0, _, t, _ => (.error .contention, t)
  | _ + 1, mutator, t, [] => (.ok (t.revision + 1), ⟨t.revision + 1, mutator t.root⟩)
  | fuel + 1, mutator, _, u :: rest => runCommit fuel mutator u rest

/-- Commit with the fixed retry budget: one initial attempt plus at most
maxCommitRetries retries. -/
def commit (mutator : LTree → LTree) (t : ShadowTree) (sched : List ShadowTree) :
    Except CommitError Nat × ShadowTree :=
  runCommit (maxCommitRetries + 1) mutator t sched

/-! ## Callback completion delivery

Modelled from the spec design note: a completion is a message posted to
the scripting thread task queue, carrying a result-or-error payload and a
correlation token; the bridge re-enqueues every native completion onto
that queue in the order the native operations complete. -/

/-- A completion message: correlation token and result-or-error payload. -/
structure Completion where
  token : Nat
  payload : Except InvokeError NativeValue

/-- The scripting thread serial task queue. -/
structure TaskQueue where
  tasks : List Completion

/-- Post one completion at the back of the scripting queue. -/
def postCompletion (q : TaskQueue) (c : Completion) : TaskQueue :=
  ⟨q.tasks ++ [c]⟩

/-- Modelled from the spec: the bridge routes the native completion events,
given in the order the underlying native operations complete, onto the
scripting thread queue, one message per completion. -/
def routeCompletions (q : TaskQueue) (events : List Completion) : TaskQueue :=
  events.foldl postCompletion q

/-! ## Concrete instances used by the witnesses and counterexamples -/

/-- A dynamic array nested to the given depth. -/
def deepDyn : Nat → DynamicValue
  | 0 => .null
  | n + 1 => .array (.cons (deepDyn n) .nil)

/-- A dynamic array whose single element is a scripting function. -/
def cexDyn : DynamicValue := .array (.cons (.func (.script 0)) .nil)

/-- The getLocation descriptor of the example scenario: one number
parameter, promise convention. -/
def geoDescriptor : MethodDescriptor := ⟨"getLocation", [.number], .promise⟩

/-- The example Geo module. -/
def geoModule : NativeModule := ⟨"Geo", [geoDescriptor], 7⟩

/-- A registry holding only the Geo module. -/
def geoRegistry : Registry := [geoModule]

/-- A plain view child node used by concrete stores. -/
def demoChildData : NodeData := ⟨.view, .view ⟨10, 20⟩, .view, .view 0, []⟩

/-- A scroll-view root whose children are the three child references. -/
def demoRootData : NodeData :=
  ⟨.scrollView, .scroll ⟨100, 200⟩, .scroll ⟨5, 7, 100, 400⟩, .scroll 9, [0, 1, 2]⟩

/-- A store holding three children and a scroll-view root. -/
def demoStore : NodeStore :=
  ⟨[(0, demoChildData), (1, demoChildData), (2, demoChildData), (3, demoRootData)], 4⟩

/-- A small scroll-view layout tree. -/
def demoTreeA : LTree :=
  .node .scrollView (.scroll ⟨100, 200⟩) (.scroll ⟨5, 7, 100, 400⟩) (.scroll 1)
    (.cons (.node .view (.view ⟨10, 20⟩) .view (.view 2) .nil) .nil)

/-- The same tree with different event emitters everywhere. -/
def demoTreeB : LTree :=
  .node .scrollView (.scroll ⟨100, 200⟩) (.scroll ⟨5, 7, 100, 400⟩) (.scroll 42)
    (.cons (.node .view (.view ⟨10, 20⟩) .view (.view 43) .nil) .nil)

/-- A concrete layout context. -/
def demoCtx : LayoutContext := ⟨90, 150, false, 2⟩

/-- A leaf node for shadow-tree examples. -/
def demoLeaf : LTree := .node .view (.view ⟨1, 1⟩) .view (.view 0) .nil

/-- A shadow tree at the given revision. -/
def demoShadow (n : Nat) : ShadowTree := ⟨n, demoLeaf⟩

/-- An interference schedule long enough to exhaust the retry budget. -/
def demoSched : List ShadowTree :=
  [demoShadow 1, demoShadow 2, demoShadow 3, demoShadow 4]

/-- A concrete completion message. -/
def demoCompletion : Completion := ⟨5, .error .notFound⟩

/-! ## Helper lemmas -/

/-- Routing completions appends them to the scripting queue in order. -/
theorem routeCompletions_tasks (q : TaskQueue) (events : List Completion) :
    (routeCompletions q events).tasks = q.tasks ++ events := by
  induction events generalizing q with
  | nil => simp [routeCompletions]
  | cons c rest ih =>
    show (routeCompletions (postCompletion q c) rest).tasks = _
    rw [ih]
    simp [postCompletion]

/-- A commit whose interference schedule is shorter than the fuel succeeds
against the last interfering revision. -/
theorem runCommit_success (fuel : Nat) (mutator : LTree → LTree) (t : ShadowTree)
    (sched : List ShadowTree) (h : sched.length < fuel) :
    runCommit fuel mutator t sched =
      (.ok ((sched.getLastD t).revision + 1),
       ⟨(sched.getLastD t).revision + 1, mutator (sched.getLastD t).root⟩) := by
  induction sched generalizing fuel t with
  | nil =>
    match fuel, h with
    | f + 1, _ => rfl
  | cons u rest ih =>
    match fuel, h with
    | f + 1, h =>
      have hr : rest.length < f := by simpa using h
      show runCommit f mutator u rest = _
      rw [ih f u hr, List.getLastD_cons]

/-- A commit whose interference schedule is at least as long as the fuel
exhausts its retries and fails with contention, leaving the latest
interfering revision in place. -/
theorem runCommit_contention (fuel : Nat) (mutator : LTree → LTree) (t : ShadowTree)
    (sched : List ShadowTree) (h : fuel ≤ sched.length) :
    runCommit fuel mutator t sched = (.error .contention, (t :: sched).getD fuel t) := by
  induction fuel generalizing t sched with
  | zero => cases sched <;> rfl
  | succ f ih =>
    match sched, h with
    | u :: rest, h =>
      have hr : f ≤ rest.length := by simpa using h
      show runCommit f mutator u rest = _
      rw [ih u rest hr]
      have hlt : f < (u :: rest).length := Nat.lt_succ_of_le hr
      simp only [List.getD_cons_succ]
      rw [List.getD_eq_getElem?_getD, List.getD_eq_getElem?_getD,
        List.getElem?_eq_getElem hlt]
      rfl

/-- An indexed default read of a list stays among the default and the
elements. -/
theorem getD_self_mem (l : List ShadowTree) (n : Nat) (d : ShadowTree) :
    l.getD n d = d ∨ l.getD n d ∈ l := by
  induction l generalizing n with
  | nil => left; cases n <;> rfl
  | cons a rest ih =>
    cases n with
    | zero => right; simp
    | succ m =>
      rw [List.getD_cons_succ]
      rcases ih m with h | h
      · left; exact h
      · right; exact List.mem_cons_of_mem a h

/-- If a pair does not resolve, the module and method find nothing. -/
theorem resolve_eq_none_of_not_registered (reg : Registry) (modName methName : String)
    (h : ¬ registered reg modName methName) : resolve reg modName methName = none := by
  cases hm : reg.find? (fun m => m.moduleName == modName) with
  | none => simp [resolve, hm]
  | some m =>
    have hmem : m ∈ reg := List.mem_of_find?_eq_some hm
    have hname : m.moduleName = modName := by
      have := List.find?_some hm
      simpa using this
    cases hd : m.methods.find? (fun d => d.methodName == methName) with
    | none => simp [resolve, hm, hd]
    | some d =>
      exfalso
      apply h
      refine ⟨m, hmem, hname, d, List.mem_of_find?_eq_some hd, ?_⟩
      have := List.find?_some hd
      simpa using this

/-- A passing argument check means the arity and every tag agree. -/
theorem checkArgs_eq_none (i : Nat) (ts : List TypeTag) (args : List DynamicValue)
    (h : checkArgs i ts args = none) :
    ts.length = args.length ∧
      ∀ j (ht : j < ts.length) (ha : j < args.length),
        dynTag (args.get ⟨j, ha⟩) = ts.get ⟨j, ht⟩ := by
  induction ts generalizing i args with
  | nil =>
    cases args with
    | nil => exact ⟨rfl, fun j ht _ => absurd ht (Nat.not_lt_zero j)⟩
    | cons a rest => simp [checkArgs] at h
  | cons t ts ih =>
    cases args with
    | nil => simp [checkArgs] at h
    | cons a rest =>
      rw [checkArgs] at h
      by_cases htag : dynTag a = t
      · rw [if_pos htag] at h
        obtain ⟨hlen, htags⟩ := ih (i + 1) rest h
        refine ⟨by simp [hlen], ?_⟩
        intro j ht ha
        cases j with
        | zero => exact htag
        | succ m =>
          have ht2 : m < ts.length := Nat.lt_of_succ_lt_succ ht
          have ha2 : m < rest.length := Nat.lt_of_succ_lt_succ ha
          exact htags m ht2 ha2
      · rw [if_neg htag] at h
        cases h

/-! ## Claim theorems -/

/-- C8: every callback-convention completion is re-enqueued onto the
scripting thread task queue, appended in the order the underlying native
operations complete; per correlation token the queue receives exactly as
many messages as completions arrived, so one native completion is
delivered exactly once.  The model has no delivery path other than the
queue, matching the requirement that completions are never invoked
directly from a native thread. -/
theorem callback_completion_delivery (q : TaskQueue) (events : List Completion) (tok : Nat) :
    (routeCompletions q events).tasks = q.tasks ++ events ∧
    (routeCompletions q events).tasks.countP (fun c => c.token == tok) =
      q.tasks.countP (fun c => c.token == tok) +
        events.countP (fun c => c.token == tok) ∧
    (q.tasks.countP (fun c => c.token == tok) = 0 →
      events.countP (fun c => c.token == tok) = 1 →
      (routeCompletions q events).tasks.countP (fun c => c.token == tok) = 1) := by
  have h := routeCompletions_tasks q events
  refine ⟨h, ?_, ?_⟩
  · rw [h, List.countP_append]
  · intro h0 h1
    rw [h, List.countP_append, h0, h1]

/-- Witness for C8 at a one-completion schedule. -/
theorem callback_completion_delivery_witness :
    (routeCompletions ⟨[]⟩ [demoCompletion]).tasks.countP (fun c => c.token == 5) = 1 :=
  (callback_completion_delivery ⟨[]⟩ [demoCompletion] 5).2.2 rfl rfl

/-- C4: a commit against a stale base is retried against the latest
revision, re-running the mutator there; retries stop at the fixed limit
maxCommitRetries, after which the commit fails with CommitError contention
and the tree is left at the latest committed revision, untouched by the
mutator and still accepting subsequent commits. -/
theorem commit_contention_bounded (mutator : LTree → LTree) (t : ShadowTree)
    (sched : List ShadowTree) :
    (sched.length ≤ maxCommitRetries →
      commit mutator t sched =
        (.ok ((sched.getLastD t).revision + 1),
         ⟨(sched.getLastD t).revision + 1, mutator (sched.getLastD t).root⟩)) ∧
    (maxCommitRetries < sched.length →
      commit mutator t sched =
        (.error .contention, (t :: sched).getD (maxCommitRetries + 1) t) ∧
      ((t :: sched).getD (maxCommitRetries + 1) t = t ∨
        (t :: sched).getD (maxCommitRetries + 1) t ∈ sched) ∧
      ∀ mutator2,
        commit mutator2 ((t :: sched).getD (maxCommitRetries + 1) t) [] =
          (.ok (((t :: sched).getD (maxCommitRetries + 1) t).revision + 1),
           ⟨((t :: sched).getD (maxCommitRetries + 1) t).revision + 1,
            mutator2 ((t :: sched).getD (maxCommitRetries + 1) t).root⟩)) := by
  constructor
  · intro hlen
    exact runCommit_success _ _ _ _ (Nat.lt_succ_of_le hlen)
  · intro hlen
    refine ⟨runCommit_contention _ _ _ _ (Nat.succ_le_of_lt hlen), ?_, ?_⟩
    · rcases getD_self_mem (t :: sched) (maxCommitRetries + 1) t with h | h
      · left; exact h
      · rcases List.mem_cons.mp h with h2 | h2
        · left; exact h2
        · right; exact h2
    · intro mutator2
      exact runCommit_success _ _ _ [] (Nat.succ_pos _)

/-- Witness for C4: a schedule of four interfering commits exhausts the
three retries and fails with contention. -/
theorem commit_contention_bounded_witness :
    commit (fun r => r) (demoShadow 0) demoSched =
      (.error .contention, demoShadow 4) ∧
    commit (fun r => r) (demoShadow 4) [] = (.ok 5, ⟨5, demoLeaf⟩) := by
  have h := (commit_contention_bounded (fun r => r) (demoShadow 0) demoSched).2
    (by simp [maxCommitRetries, demoSched])
  refine ⟨?_, ?_⟩
  · exact h.1
  · exact h.2.2 (fun r => r)

/-- C6: a module and method pair that does not resolve to a registered
module and method yields NotFound from resolve, and invoke reports
NotFound to the caller for every argument list, leaving the marshaller
state untouched; the registry, taken immutably, is never modified. -/
theorem resolve_invoke_notFound (reg : Registry) (modName methName : String)
    (h : ¬ registered reg modName methName) :
    resolve reg modName methName = none ∧
    ∀ (args : List DynamicValue) (ctr : Nat),
      invoke reg modName methName args ctr = (.failure .notFound, ctr) := by
  have hr := resolve_eq_none_of_not_registered reg modName methName h
  refine ⟨hr, ?_⟩
  intro args ctr
  simp [invoke, hr]

/-- Witness for C6 at a concrete registry and unregistered method name. -/
theorem resolve_invoke_notFound_witness :
    resolve geoRegistry "Geo" "missing" = none ∧
    ∀ (args : List DynamicValue) (ctr : Nat),
      invoke geoRegistry "Geo" "missing" args ctr = (.failure .notFound, ctr) :=
  resolve_invoke_notFound geoRegistry "Geo" "missing" (by unfold registered; decide)

/-- C2: when the resolved descriptor and the argument list disagree in
arity or in some argument tag, invoke returns ArgumentError with the first
failing index and the tag expected there, synchronously: the outcome is a
failure rather than a native call, and the marshaller token state is
returned untouched, so no argument was marshalled and the native
implementation was never reached. -/
theorem invoke_argument_error (reg : Registry) (modName methName : String)
    (args : List DynamicValue) (ctr implId : Nat) (d : MethodDescriptor)
    (hres : resolve reg modName methName = some (implId, d))
    (hmis : argsMismatch d.paramTags args) :
    ∃ fail : ArgFailure,
      checkArgs 0 d.paramTags args = some fail ∧
      invoke reg modName methName args ctr =
        (.failure (.argumentError fail.index fail.expected), ctr) := by
  cases hc : checkArgs 0 d.paramTags args with
  | none =>
    exfalso
    obtain ⟨hlen, htags⟩ := checkArgs_eq_none 0 d.paramTags args hc
    rcases hmis with hl | ⟨i, ht, ha, hne⟩
    · exact hl hlen
    · exact hne (htags i ht ha)
  | some fail =>
    refine ⟨fail, rfl, ?_⟩
    simp [invoke, hres, hc]

/-- Witness for C2: the spec example scenario, module Geo with the
promise-convention method getLocation expecting one number, invoked with
zero arguments, yields ArgumentError at index 0 expecting number. -/
theorem invoke_argument_error_witness :
    invoke geoRegistry "Geo" "getLocation" [] 0 =
      (.failure (.argumentError 0 (some .number)), 0) := by
  obtain ⟨fail, hc, hinv⟩ :=
    invoke_argument_error geoRegistry "Geo" "getLocation" [] 0 7 geoDescriptor rfl
      (Or.inl (by decide))
  have hfail : fail = ⟨0, some .number⟩ := by
    have h2 := hc
    rw [show checkArgs 0 geoDescriptor.paramTags [] = some ⟨0, some TypeTag.number⟩
      from rfl] at h2
    exact (Option.some.inj h2).symm
  rw [hfail] at hinv
  exact hinv

/-- A fresh store has no node at the allocator id. -/
theorem lookup_nextId_none (st : NodeStore) (hf : st.fresh) :
    st.lookup st.nextId = none := by
  have hfind : st.nodes.find? (fun p => p.1 == st.nextId) = none := by
    rw [List.find?_eq_none]
    intro p hp
    simp only [beq_iff_eq]
    exact Nat.ne_of_lt (hf p hp)
  simp [NodeStore.lookup, hfind]

/-- Allocating one node at the fresh id leaves every other reference
looking up the same node as before, and the fresh id the new node. -/
theorem alloc_lookup (st : NodeStore) (d2 : NodeData) :
    (NodeStore.mk ((st.nextId, d2) :: st.nodes) (st.nextId + 1)).lookup st.nextId = some d2 ∧
    ∀ k, k ≠ st.nextId →
      (NodeStore.mk ((st.nextId, d2) :: st.nodes) (st.nextId + 1)).lookup k = st.lookup k := by
  constructor
  · simp [NodeStore.lookup, List.find?]
  · intro k hk
    have hne : (st.nextId == k) = false := by
      simp only [beq_eq_false_iff_ne, ne_eq]
      exact fun he => hk he.symm
    simp [NodeStore.lookup, List.find?, hne]

/-- C5: each clone-with-changed-field operation returns a genuinely new
node instance (no node existed at the returned reference before) holding
exactly the original fields but for the changed one; for cloneWithProps
and cloneWithState the children reference list is carried over identical,
and for all three operations every other reference in the store, the
children included, still resolves to the very same node as before, so
untouched children are shared rather than copied. -/
theorem clone_shares_children (st : NodeStore) (i : NodeId) (d : NodeData)
    (hf : st.fresh) (hl : st.lookup i = some d) :
    (∀ p : Props, ∃ st2 : NodeStore,
      cloneWithProps st i p = some (st2, st.nextId) ∧
      st.lookup st.nextId = none ∧
      st2.lookup st.nextId = some { d with props := p } ∧
      ({ d with props := p } : NodeData).children = d.children ∧
      ∀ k, k ≠ st.nextId → st2.lookup k = st.lookup k) ∧
    (∀ s : StateData, ∃ st2 : NodeStore,
      cloneWithState st i s = some (st2, st.nextId) ∧
      st2.lookup st.nextId = some { d with state := s } ∧
      ({ d with state := s } : NodeData).children = d.children ∧
      ∀ k, k ≠ st.nextId → st2.lookup k = st.lookup k) ∧
    (∀ cs : List NodeId, ∃ st2 : NodeStore,
      cloneWithChildren st i cs = some (st2, st.nextId) ∧
      st2.lookup st.nextId = some { d with children := cs } ∧
      ∀ k, k ≠ st.nextId → st2.lookup k = st.lookup k) := by
  refine ⟨?_, ?_, ?_⟩
  · intro p
    refine ⟨⟨(st.nextId, { d with props := p }) :: st.nodes, st.nextId + 1⟩, ?_, ?_, ?_, rfl, ?_⟩
    · simp [cloneWithProps, hl]
    · exact lookup_nextId_none st hf
    · exact (alloc_lookup st { d with props := p }).1
    · exact (alloc_lookup st { d with props := p }).2
  · intro s
    refine ⟨⟨(st.nextId, { d with state := s }) :: st.nodes, st.nextId + 1⟩, ?_, ?_, rfl, ?_⟩
    · simp [cloneWithState, hl]
    · exact (alloc_lookup st { d with state := s }).1
    · exact (alloc_lookup st { d with state := s }).2
  · intro cs
    refine ⟨⟨(st.nextId, { d with children := cs }) :: st.nodes, st.nextId + 1⟩, ?_, ?_, ?_⟩
    · simp [cloneWithChildren, hl]
    · exact (alloc_lookup st { d with children := cs }).1
    · exact (alloc_lookup st { d with children := cs }).2

/-- Witness for C5: cloning a child of the demo store with new props
shares the children and touches no other reference. -/
theorem clone_shares_children_witness :
    ∃ st2 : NodeStore,
      cloneWithProps demoStore 1 (.view ⟨11, 21⟩) = some (st2, 4) ∧
      demoStore.lookup 4 = none ∧
      st2.lookup 4 = some { demoChildData with props := .view ⟨11, 21⟩ } ∧
      ({ demoChildData with props := Props.view ⟨11, 21⟩ } : NodeData).children =
        demoChildData.children ∧
      ∀ k, k ≠ 4 → st2.lookup k = demoStore.lookup k :=
  (clone_shares_children demoStore 1 demoChildData
    (by unfold NodeStore.fresh; decide) rfl).1 (.view ⟨11, 21⟩)

/-- C9: getContentOriginOffset, modelled as a store transformer, returns
the store untouched (the const contract of the declaration) and, on a
node whose state is a scroll-view state, yields the Point that negates
the content offset; the node, its props, state, children and emitter are
left exactly as they were. -/
theorem getContentOriginOffset_const (st : NodeStore) (i : NodeId) :
    (getContentOriginOffset st i).1 = st ∧
    ∀ d s, st.lookup i = some d → d.state = .scroll s →
      (getContentOriginOffset st i).2 = some ⟨-s.contentOffsetX, -s.contentOffsetY⟩ := by
  refine ⟨rfl, ?_⟩
  intro d s hl hs
  simp [getContentOriginOffset, hl, hs]

/-- Witness for C9 at the demo scroll-view node. -/
theorem getContentOriginOffset_const_witness :
    (getContentOriginOffset demoStore 3).1 = demoStore ∧
    (getContentOriginOffset demoStore 3).2 = some ⟨-5, -7⟩ :=
  ⟨(getContentOriginOffset_const demoStore 3).1,
   (getContentOriginOffset_const demoStore 3).2 demoRootData ⟨5, 7, 100, 400⟩ rfl rfl⟩

/-- C10: a ScrollView shadow node carries exactly the concrete ScrollView
component types: construction fixes scroll props, scroll state, a scroll
emitter and the ScrollView component-name tag, and the typed clone
operations of the final class preserve all of that, so no operation of the
model produces a scroll-view node with other props, state or emitter
variants. -/
theorem scrollView_concrete_types (st : NodeStore) :
    (∀ (p : ScrollViewProps) (s : ScrollViewState) (e : Nat) (ch : List NodeId),
      (mkScrollViewNode st p s e ch).1.lookup (mkScrollViewNode st p s e ch).2 =
        some ⟨.scrollView, .scroll p, .scroll s, .scroll e, ch⟩ ∧
      wellKinded ⟨.scrollView, .scroll p, .scroll s, .scroll e, ch⟩ ∧
      componentNameOf ComponentKind.scrollView = scrollViewComponentName) ∧
    (∀ (i : NodeId) (d : NodeData) (p : ScrollViewProps) (st2 : NodeStore) (j : NodeId),
      st.lookup i = some d → d.kind = .scrollView → wellKinded d →
      scrollCloneWithProps st i p = some (st2, j) →
      ∃ d2, st2.lookup j = some d2 ∧ d2.kind = .scrollView ∧ wellKinded d2 ∧
        componentNameOf d2.kind = scrollViewComponentName) ∧
    (∀ (i : NodeId) (d : NodeData) (s : ScrollViewState) (st2 : NodeStore) (j : NodeId),
      st.lookup i = some d → d.kind = .scrollView → wellKinded d →
      scrollCloneWithState st i s = some (st2, j) →
      ∃ d2, st2.lookup j = some d2 ∧ d2.kind = .scrollView ∧ wellKinded d2 ∧
        componentNameOf d2.kind = scrollViewComponentName) := by
  refine ⟨?_, ?_, ?_⟩
  · intro p s e ch
    refine ⟨?_, ⟨fun _ => ⟨⟨p, rfl⟩, ⟨s, rfl⟩, ⟨e, rfl⟩⟩, fun h => nomatch h⟩, rfl⟩
    simp [mkScrollViewNode, NodeStore.lookup, List.find?]
  · intro i d p st2 j hl hkind hwk hclone
    rw [scrollCloneWithProps, cloneWithProps, hl] at hclone
    have hst2 : st2 = ⟨(st.nextId, { d with props := .scroll p }) :: st.nodes, st.nextId + 1⟩ := by
      cases hclone; rfl
    have hj : j = st.nextId := by
      cases hclone; rfl
    subst hst2; subst hj
    refine ⟨{ d with props := .scroll p }, (alloc_lookup st _).1, hkind, ?_, ?_⟩
    · refine ⟨fun _ => ⟨⟨p, rfl⟩, ?_, ?_⟩, fun h => ?_⟩
      · obtain ⟨_, ⟨s0, hs0⟩, _⟩ := hwk.1 hkind
        exact ⟨s0, hs0⟩
      · obtain ⟨_, _, ⟨e0, he0⟩⟩ := hwk.1 hkind
        exact ⟨e0, he0⟩
      · rw [show ({ d with props := Props.scroll p } : NodeData).kind = d.kind from rfl,
            hkind] at h
        exact nomatch h
    · rw [show ({ d with props := Props.scroll p } : NodeData).kind = d.kind from rfl, hkind]
      rfl
  · intro i d s st2 j hl hkind hwk hclone
    rw [scrollCloneWithState, cloneWithState, hl] at hclone
    have hst2 : st2 = ⟨(st.nextId, { d with state := .scroll s }) :: st.nodes, st.nextId + 1⟩ := by
      cases hclone; rfl
    have hj : j = st.nextId := by
      cases hclone; rfl
    subst hst2; subst hj
    refine ⟨{ d with state := .scroll s }, (alloc_lookup st _).1, hkind, ?_, ?_⟩
    · refine ⟨fun _ => ⟨?_, ⟨s, rfl⟩, ?_⟩, fun h => ?_⟩
      · obtain ⟨⟨p0, hp0⟩, _, _⟩ := hwk.1 hkind
        exact ⟨p0, hp0⟩
      · obtain ⟨_, _, ⟨e0, he0⟩⟩ := hwk.1 hkind
        exact ⟨e0, he0⟩
      · rw [show ({ d with state := StateData.scroll s } : NodeData).kind = d.kind from rfl,
            hkind] at h
        exact nomatch h
    · rw [show ({ d with state := StateData.scroll s } : NodeData).kind = d.kind from rfl, hkind]
      rfl

/-- Witness for C10: cloning the demo scroll-view root with new scroll
props keeps every concrete ScrollView component type. -/
theorem scrollView_concrete_types_witness :
    ∃ d2, (NodeStore.mk
        ((4, { demoRootData with props := Props.scroll ⟨101, 201⟩ }) :: demoStore.nodes)
        5).lookup 4 = some d2 ∧
      d2.kind = .scrollView ∧ wellKinded d2 ∧
      componentNameOf d2.kind = scrollViewComponentName :=
  (scrollView_concrete_types demoStore).2.1 3 demoRootData ⟨101, 201⟩
    (NodeStore.mk
      ((4, { demoRootData with props := Props.scroll ⟨101, 201⟩ }) :: demoStore.nodes) 5) 4
    rfl rfl
    ⟨fun _ => ⟨⟨⟨100, 200⟩, rfl⟩, ⟨⟨5, 7, 100, 400⟩, rfl⟩, ⟨9, rfl⟩⟩, fun h => nomatch h⟩
    rfl

mutual
/-- Trees with the same layout-relevant view measure to equal sizes. -/
theorem measureT_congr (t t2 : LTree) : toView t = toView t2 → measureT t = measureT t2 := by
  cases t with
  | node k p s e cs =>
    cases t2 with
    | node k2 p2 s2 e2 cs2 =>
      intro h
      simp only [toView, LView.node.injEq] at h
      obtain ⟨hk, hp, hs, hcs⟩ := h
      subst hk; subst hp; subst hs
      cases k with
      | scrollView => simp only [measureT]
      | view => simp only [measureT]; rw [measureF_congr cs cs2 hcs]

/-- Forests with the same layout-relevant view have equal stacked
heights. -/
theorem measureF_congr (cs cs2 : LForest) :
    toViewF cs = toViewF cs2 → measureF cs = measureF cs2 := by
  cases cs with
  | nil =>
    cases cs2 with
    | nil => intro _; rfl
    | cons t2 rest2 => intro h; simp [toViewF] at h
  | cons t rest =>
    cases cs2 with
    | nil => intro h; simp [toViewF] at h
    | cons t2 rest2 =>
      intro h
      simp only [toViewF, LVForest.cons.injEq] at h
      obtain ⟨h1, h2⟩ := h
      simp only [measureF]
      rw [measureT_congr t t2 h1, measureF_congr rest rest2 h2]
end

mutual
/-- Trees with the same layout-relevant view are placed identically. -/
theorem placeT_congr (t t2 : LTree) (x y : Int) :
    toView t = toView t2 → placeT t x y = placeT t2 x y := by
  cases t with
  | node k p s e cs =>
    cases t2 with
    | node k2 p2 s2 e2 cs2 =>
      intro h
      simp only [toView, LView.node.injEq] at h
      obtain ⟨hk, hp, hs, hcs⟩ := h
      subst hk; subst hp; subst hs
      have hm : measureT (.node k p s e cs) = measureT (.node k p s e2 cs2) :=
        measureT_congr _ _ (by simp [toView, hcs])
      simp only [placeT]
      rw [hm, placeF_congr cs cs2 (x + (contentOriginOffsetOf k s).x)
        (y + (contentOriginOffsetOf k s).y) hcs]

/-- Forests with the same layout-relevant view are placed identically. -/
theorem placeF_congr (cs cs2 : LForest) (x y : Int) :
    toViewF cs = toViewF cs2 → placeF cs x y = placeF cs2 x y := by
  cases cs with
  | nil =>
    cases cs2 with
    | nil => intro _; rfl
    | cons t2 rest2 => intro h; simp [toViewF] at h
  | cons t rest =>
    cases cs2 with
    | nil => intro h; simp [toViewF] at h
    | cons t2 rest2 =>
      intro h
      simp only [toViewF, LVForest.cons.injEq] at h
      obtain ⟨h1, h2⟩ := h
      simp only [placeF]
      rw [placeT_congr t t2 x y h1, measureT_congr t t2 h1,
        placeF_congr rest rest2 x (y + (measureT t2).2) h2]
end

/-- C3: layout is a pure function of the node props, state, children and
the layout context: any two trees that agree on the layout-relevant view
(differing, say, in event emitters or any other identity) produce the
same geometry under the same context, and the model returns geometry
without writing to any shared structure. -/
theorem layout_pure (t t2 : LTree) (ctx : LayoutContext)
    (h : toView t = toView t2) : layoutT t ctx = layoutT t2 ctx := by
  simp only [layoutT]
  rw [placeT_congr t t2 0 0 h]

/-- Witness for C3: the demo trees differ only in their event emitters and
lay out identically. -/
theorem layout_pure_witness : layoutT demoTreeA demoCtx = layoutT demoTreeB demoCtx :=
  layout_pure demoTreeA demoTreeB demoCtx rfl

mutual
/-- A function-free dynamic value within the depth budget marshals, under
its own tag, to a native value that converts back to the very same value,
leaving the token allocator untouched. -/
theorem roundtripAux (v : DynamicValue) : ∀ (fuel ctr : Nat),
    funcFree v = true → ddepth v ≤ fuel →
    ∃ n, toNativeAux fuel v (dynTag v) ctr = .ok (n, ctr) ∧ toDynamic n = v := by
  cases v with
  | null =>
    intro fuel ctr _ hd
    cases fuel with
    | zero => exact absurd hd (by simp [ddepth])
    | succ f => exact ⟨.null, rfl, rfl⟩
  | bool b =>
    intro fuel ctr _ hd
    cases fuel with
    | zero => exact absurd hd (by simp [ddepth])
    | succ f => exact ⟨.bool b, rfl, rfl⟩
  | number q =>
    intro fuel ctr _ hd
    cases fuel with
    | zero => exact absurd hd (by simp [ddepth])
    | succ f => exact ⟨.number q, rfl, rfl⟩
  | str s =>
    intro fuel ctr _ hd
    cases fuel with
    | zero => exact absurd hd (by simp [ddepth])
    | succ f => exact ⟨.str s, rfl, rfl⟩
  | array xs =>
    intro fuel ctr hff hd
    cases fuel with
    | zero =>
      exfalso
      simp only [ddepth, Nat.le_zero] at hd
      omega
    | succ f =>
      have hd2 : ddepthList xs ≤ f := by
        simp only [ddepth] at hd
        omega
      have hff2 : funcFreeList xs = true := by simpa [funcFree] using hff
      obtain ⟨ys, hys, hback⟩ := roundtripList xs f ctr hff2 hd2
      refine ⟨.array ys, ?_, ?_⟩
      · show toNativeAux (f + 1) (.array xs) .array ctr = _
        simp [toNativeAux, hys]
      · simp [toDynamic, hback]
  | map es =>
    intro fuel ctr hff hd
    cases fuel with
    | zero =>
      exfalso
      simp only [ddepth, Nat.le_zero] at hd
      omega
    | succ f =>
      have hd2 : ddepthEntries es ≤ f := by
        simp only [ddepth] at hd
        omega
      have hff2 : funcFreeEntries es = true := by simpa [funcFree] using hff
      obtain ⟨fs, hfs, hback⟩ := roundtripEntries es f ctr hff2 hd2
      refine ⟨.map fs, ?_, ?_⟩
      · show toNativeAux (f + 1) (.map es) .map ctr = _
        simp [toNativeAux, hfs]
      · simp [toDynamic, hback]
  | func tg =>
    intro fuel ctr hff _
    simp [funcFree] at hff

/-- Element-wise round trip on a function-free dynamic array. -/
theorem roundtripList (xs : DynList) : ∀ (fuel ctr : Nat),
    funcFreeList xs = true → ddepthList xs ≤ fuel →
    ∃ ys, toNativeList fuel xs ctr = .ok (ys, ctr) ∧ toDynamicList ys = xs := by
  cases xs with
  | nil => intro fuel ctr _ _; exact ⟨.nil, rfl, rfl⟩
  | cons x rest =>
    intro fuel ctr hff hd
    simp only [funcFreeList, Bool.and_eq_true] at hff
    simp only [ddepthList, max_le_iff] at hd
    obtain ⟨y, hy, hyb⟩ := roundtripAux x fuel ctr hff.1 hd.1
    obtain ⟨ys, hys, hysb⟩ := roundtripList rest fuel ctr hff.2 hd.2
    refine ⟨.cons y ys, ?_, ?_⟩
    · show toNativeList fuel (.cons x rest) ctr = _
      simp [toNativeList, hy, hys]
    · simp [toDynamicList, hyb, hysb]

/-- Entry-wise round trip on a function-free dynamic map. -/
theorem roundtripEntries (es : DynEntries) : ∀ (fuel ctr : Nat),
    funcFreeEntries es = true → ddepthEntries es ≤ fuel →
    ∃ fs, toNativeEntries fuel es ctr = .ok (fs, ctr) ∧ toDynamicEntries fs = es := by
  cases es with
  | nil => intro fuel ctr _ _; exact ⟨.nil, rfl, rfl⟩
  | cons k v rest =>
    intro fuel ctr hff hd
    simp only [funcFreeEntries, Bool.and_eq_true] at hff
    simp only [ddepthEntries, max_le_iff] at hd
    obtain ⟨w, hw, hwb⟩ := roundtripAux v fuel ctr hff.1 hd.1
    obtain ⟨fs, hfs, hfsb⟩ := roundtripEntries rest fuel ctr hff.2 hd.2
    refine ⟨.cons k w fs, ?_, ?_⟩
    · show toNativeEntries fuel (.cons k v rest) ctr = _
      simp [toNativeEntries, hw, hfs]
    · simp [toDynamicEntries, hwb, hfsb]
end

mutual
/-- Conversion under the matching tag succeeds whenever the depth budget
covers the value. -/
theorem toNativeAux_total (v : DynamicValue) : ∀ (fuel ctr : Nat), ddepth v ≤ fuel →
    ∃ n ctr2, toNativeAux fuel v (dynTag v) ctr = .ok (n, ctr2) := by
  cases v with
  | null =>
    intro fuel ctr hd
    cases fuel with
    | zero => exact absurd hd (by simp [ddepth])
    | succ f => exact ⟨.null, ctr, rfl⟩
  | bool b =>
    intro fuel ctr hd
    cases fuel with
    | zero => exact absurd hd (by simp [ddepth])
    | succ f => exact ⟨.bool b, ctr, rfl⟩
  | number q =>
    intro fuel ctr hd
    cases fuel with
    | zero => exact absurd hd (by simp [ddepth])
    | succ f => exact ⟨.number q, ctr, rfl⟩
  | str s =>
    intro fuel ctr hd
    cases fuel with
    | zero => exact absurd hd (by simp [ddepth])
    | succ f => exact ⟨.str s, ctr, rfl⟩
  | array xs =>
    intro fuel ctr hd
    cases fuel with
    | zero =>
      exfalso
      simp only [ddepth, Nat.le_zero] at hd
      omega
    | succ f =>
      have hd2 : ddepthList xs ≤ f := by
        simp only [ddepth] at hd
        omega
      obtain ⟨ys, ctr2, hys⟩ := toNativeList_total xs f ctr hd2
      refine ⟨.array ys, ctr2, ?_⟩
      show toNativeAux (f + 1) (.array xs) .array ctr = _
      simp [toNativeAux, hys]
  | map es =>
    intro fuel ctr hd
    cases fuel with
    | zero =>
      exfalso
      simp only [ddepth, Nat.le_zero] at hd
      omega
    | succ f =>
      have hd2 : ddepthEntries es ≤ f := by
        simp only [ddepth] at hd
        omega
      obtain ⟨fs, ctr2, hfs⟩ := toNativeEntries_total es f ctr hd2
      refine ⟨.map fs, ctr2, ?_⟩
      show toNativeAux (f + 1) (.map es) .map ctr = _
      simp [toNativeAux, hfs]
  | func tg =>
    intro fuel ctr hd
    cases fuel with
    | zero => exact absurd hd (by simp [ddepth])
    | succ f =>
      cases tg with
      | script f0 => exact ⟨.funcRef ⟨ctr, f0⟩, ctr + 1, rfl⟩
      | wrapper tok => exact ⟨.funcRef tok, ctr, rfl⟩

/-- Element-wise conversion succeeds whenever the depth budget covers
every element. -/
theorem toNativeList_total (xs : DynList) : ∀ (fuel ctr : Nat), ddepthList xs ≤ fuel →
    ∃ ys ctr2, toNativeList fuel xs ctr = .ok (ys, ctr2) := by
  cases xs with
  | nil => intro fuel ctr _; exact ⟨.nil, ctr, rfl⟩
  | cons x rest =>
    intro fuel ctr hd
    simp only [ddepthList, max_le_iff] at hd
    obtain ⟨y, ctr1, hy⟩ := toNativeAux_total x fuel ctr hd.1
    obtain ⟨ys, ctr2, hys⟩ := toNativeList_total rest fuel ctr1 hd.2
    refine ⟨.cons y ys, ctr2, ?_⟩
    show toNativeList fuel (.cons x rest) ctr = _
    simp [toNativeList, hy, hys]

/-- Entry-wise conversion succeeds whenever the depth budget covers every
entry. -/
theorem toNativeEntries_total (es : DynEntries) : ∀ (fuel ctr : Nat), ddepthEntries es ≤ fuel →
    ∃ fs ctr2, toNativeEntries fuel es ctr = .ok (fs, ctr2) := by
  cases es with
  | nil => intro fuel ctr _; exact ⟨.nil, ctr, rfl⟩
  | cons k v rest =>
    intro fuel ctr hd
    simp only [ddepthEntries, max_le_iff] at hd
    obtain ⟨w, ctr1, hw⟩ := toNativeAux_total v fuel ctr hd.1
    obtain ⟨fs, ctr2, hfs⟩ := toNativeEntries_total rest fuel ctr1 hd.2
    refine ⟨.cons k w fs, ctr2, ?_⟩
    show toNativeEntries fuel (.cons k v rest) ctr = _
    simp [toNativeEntries, hw, hfs]
end

mutual
/-- A successful conversion never consumed more depth than the fuel: the
nesting of any successfully converted value stays within the budget. -/
theorem toNativeAux_ok_depth (v : DynamicValue) : ∀ (fuel : Nat) (tag : TypeTag)
    (ctr : Nat) (n : NativeValue) (ctr2 : Nat),
    toNativeAux fuel v tag ctr = .ok (n, ctr2) → ddepth v ≤ fuel := by
  cases v with
  | null =>
    intro fuel tag ctr n ctr2 h
    cases fuel with
    | zero => simp [toNativeAux] at h
    | succ f => simp only [ddepth]; omega
  | bool b =>
    intro fuel tag ctr n ctr2 h
    cases fuel with
    | zero => simp [toNativeAux] at h
    | succ f => simp only [ddepth]; omega
  | number q =>
    intro fuel tag ctr n ctr2 h
    cases fuel with
    | zero => simp [toNativeAux] at h
    | succ f => simp only [ddepth]; omega
  | str s =>
    intro fuel tag ctr n ctr2 h
    cases fuel with
    | zero => simp [toNativeAux] at h
    | succ f => simp only [ddepth]; omega
  | array xs =>
    intro fuel tag ctr n ctr2 h
    cases fuel with
    | zero => simp [toNativeAux] at h
    | succ f =>
      cases tag with
      | array =>
        cases hl : toNativeList f xs ctr with
        | error e => simp [toNativeAux, hl] at h
        | ok pr =>
          have hd := toNativeList_ok_depth xs f ctr pr.1 pr.2 (by rw [hl])
          simp only [ddepth]
          omega
      | null => simp [toNativeAux] at h
      | bool => simp [toNativeAux] at h
      | number => simp [toNativeAux] at h
      | string => simp [toNativeAux] at h
      | map => simp [toNativeAux] at h
      | funcRef => simp [toNativeAux] at h
  | map es =>
    intro fuel tag ctr n ctr2 h
    cases fuel with
    | zero => simp [toNativeAux] at h
    | succ f =>
      cases tag with
      | map =>
        cases hl : toNativeEntries f es ctr with
        | error e => simp [toNativeAux, hl] at h
        | ok pr =>
          have hd := toNativeEntries_ok_depth es f ctr pr.1 pr.2 (by rw [hl])
          simp only [ddepth]
          omega
      | null => simp [toNativeAux] at h
      | bool => simp [toNativeAux] at h
      | number => simp [toNativeAux] at h
      | string => simp [toNativeAux] at h
      | array => simp [toNativeAux] at h
      | funcRef => simp [toNativeAux] at h
  | func tg =>
    intro fuel tag ctr n ctr2 h
    cases fuel with
    | zero => simp [toNativeAux] at h
    | succ f => simp only [ddepth]; omega

/-- Element-wise version of the successful-conversion depth bound. -/
theorem toNativeList_ok_depth (xs : DynList) : ∀ (fuel ctr : Nat) (ys : NativeList)
    (ctr2 : Nat), toNativeList fuel xs ctr = .ok (ys, ctr2) → ddepthList xs ≤ fuel := by
  cases xs with
  | nil => intro fuel ctr ys ctr2 _; simp [ddepthList]
  | cons x rest =>
    intro fuel ctr ys ctr2 h
    cases hx : toNativeAux fuel x (dynTag x) ctr with
    | error e => simp [toNativeList, hx] at h
    | ok pr =>
      cases hrest : toNativeList fuel rest pr.2 with
      | error e =>
        rw [show pr = (pr.1, pr.2) from rfl] at hx
        simp [toNativeList, hx, hrest] at h
      | ok pr2 =>
        have h1 := toNativeAux_ok_depth x fuel (dynTag x) ctr pr.1 pr.2 (by rw [hx])
        have h2 := toNativeList_ok_depth rest fuel pr.2 pr2.1 pr2.2 (by rw [hrest])
        simp only [ddepthList]
        exact max_le h1 h2

/-- Entry-wise version of the successful-conversion depth bound. -/
theorem toNativeEntries_ok_depth (es : DynEntries) : ∀ (fuel ctr : Nat)
    (fs : NativeEntries) (ctr2 : Nat),
    toNativeEntries fuel es ctr = .ok (fs, ctr2) → ddepthEntries es ≤ fuel := by
  cases es with
  | nil => intro fuel ctr fs ctr2 _; simp [ddepthEntries]
  | cons k v rest =>
    intro fuel ctr fs ctr2 h
    cases hv : toNativeAux fuel v (dynTag v) ctr with
    | error e => simp [toNativeEntries, hv] at h
    | ok pr =>
      cases hrest : toNativeEntries fuel rest pr.2 with
      | error e =>
        rw [show pr = (pr.1, pr.2) from rfl] at hv
        simp [toNativeEntries, hv, hrest] at h
      | ok pr2 =>
        have h1 := toNativeAux_ok_depth v fuel (dynTag v) ctr pr.1 pr.2 (by rw [hv])
        have h2 := toNativeEntries_ok_depth rest fuel pr.2 pr2.1 pr2.2 (by rw [hrest])
        simp only [ddepthEntries]
        exact max_le h1 h2
end

mutual
/-- Conversion under the matching tag of a value nested deeper than the
fuel fails with the depth-exceeded error. -/
theorem toNativeAux_deep (v : DynamicValue) : ∀ (fuel ctr : Nat), fuel < ddepth v →
    toNativeAux fuel v (dynTag v) ctr = .error .depthExceeded := by
  cases v with
  | null =>
    intro fuel ctr h
    have h0 : fuel = 0 := by simp only [ddepth] at h; omega
    subst h0; rfl
  | bool b =>
    intro fuel ctr h
    have h0 : fuel = 0 := by simp only [ddepth] at h; omega
    subst h0; rfl
  | number q =>
    intro fuel ctr h
    have h0 : fuel = 0 := by simp only [ddepth] at h; omega
    subst h0; rfl
  | str s =>
    intro fuel ctr h
    have h0 : fuel = 0 := by simp only [ddepth] at h; omega
    subst h0; rfl
  | array xs =>
    intro fuel ctr h
    cases fuel with
    | zero => rfl
    | succ f =>
      have hf : f < ddepthList xs := by simp only [ddepth] at h; omega
      show toNativeAux (f + 1) (.array xs) .array ctr = _
      simp [toNativeAux, toNativeList_deep xs f ctr hf]
  | map es =>
    intro fuel ctr h
    cases fuel with
    | zero => rfl
    | succ f =>
      have hf : f < ddepthEntries es := by simp only [ddepth] at h; omega
      show toNativeAux (f + 1) (.map es) .map ctr = _
      simp [toNativeAux, toNativeEntries_deep es f ctr hf]
  | func tg =>
    intro fuel ctr h
    have h0 : fuel = 0 := by simp only [ddepth] at h; omega
    subst h0; rfl

/-- Element-wise version of the depth-exceeded failure. -/
theorem toNativeList_deep (xs : DynList) : ∀ (fuel ctr : Nat), fuel < ddepthList xs →
    toNativeList fuel xs ctr = .error .depthExceeded := by
  cases xs with
  | nil =>
    intro fuel ctr h
    exact absurd h (by simp [ddepthList])
  | cons x rest =>
    intro fuel ctr h
    by_cases hx : fuel < ddepth x
    · have hdx := toNativeAux_deep x fuel ctr hx
      show toNativeList fuel (.cons x rest) ctr = _
      simp [toNativeList, hdx]
    · push_neg at hx
      have hr : fuel < ddepthList rest := by
        simp only [ddepthList, lt_max_iff] at h
        rcases h with h | h
        · exact absurd h (by omega)
        · exact h
      obtain ⟨y, ctr1, hy⟩ := toNativeAux_total x fuel ctr hx
      show toNativeList fuel (.cons x rest) ctr = _
      simp [toNativeList, hy, toNativeList_deep rest fuel ctr1 hr]

/-- Entry-wise version of the depth-exceeded failure. -/
theorem toNativeEntries_deep (es : DynEntries) : ∀ (fuel ctr : Nat),
    fuel < ddepthEntries es → toNativeEntries fuel es ctr = .error .depthExceeded := by
  cases es with
  | nil =>
    intro fuel ctr h
    exact absurd h (by simp [ddepthEntries])
  | cons k v rest =>
    intro fuel ctr h
    by_cases hv : fuel < ddepth v
    · have hdv := toNativeAux_deep v fuel ctr hv
      show toNativeEntries fuel (.cons k v rest) ctr = _
      simp [toNativeEntries, hdv]
    · push_neg at hv
      have hr : fuel < ddepthEntries rest := by
        simp only [ddepthEntries, lt_max_iff] at h
        rcases h with h | h
        · exact absurd h (by omega)
        · exact h
      obtain ⟨w, ctr1, hw⟩ := toNativeAux_total v fuel ctr hv
      show toNativeEntries fuel (.cons k v rest) ctr = _
      simp [toNativeEntries, hw, toNativeEntries_deep rest fuel ctr1 hr]
end

/-- C1 (amended): for every valid pair of a dynamic value and its tag
whose value contains no function reference, marshalling to native and
back is the structural identity, with no token allocated; a
function-reference value instead round-trips by identity of its opaque
invocation token: a scripting function marshals to a freshly allocated
token whose target is that very function and converts back to a wrapper
carrying that token, and a wrapper function round-trips to the literally
identical token. -/
theorem marshal_roundtrip (v : DynamicValue) (tag : TypeTag) (ctr : Nat) :
    (funcFree v = true → dynTag v = tag → ddepth v ≤ maxMarshalDepth →
      ∃ n, toNative v tag ctr = .ok (n, ctr) ∧ toDynamic n = v) ∧
    (∀ f, v = .func (.script f) → tag = .funcRef →
      toNative v tag ctr = .ok (.funcRef ⟨ctr, f⟩, ctr + 1) ∧
      toDynamic (.funcRef ⟨ctr, f⟩) = .func (.wrapper ⟨ctr, f⟩) ∧
      (⟨ctr, f⟩ : InvocationToken).target = f) ∧
    (∀ tok, v = .func (.wrapper tok) → tag = .funcRef →
      toNative v tag ctr = .ok (.funcRef tok, ctr) ∧
      toDynamic (.funcRef tok) = .func (.wrapper tok)) := by
  refine ⟨?_, ?_, ?_⟩
  · intro hff htag hd
    subst htag
    exact roundtripAux v maxMarshalDepth ctr hff hd
  · rintro f rfl rfl
    exact ⟨rfl, rfl, rfl⟩
  · rintro tok rfl rfl
    exact ⟨rfl, rfl⟩

/-- Witness for C1 at a concrete function-free array. -/
theorem marshal_roundtrip_witness :
    ∃ n, toNative (.array (.cons (.number 2) (.cons (.str "hi") .nil))) TypeTag.array 0 =
        .ok (n, 0) ∧
      toDynamic n = .array (.cons (.number 2) (.cons (.str "hi") .nil)) :=
  (marshal_roundtrip (.array (.cons (.number 2) (.cons (.str "hi") .nil)))
    TypeTag.array 0).1 rfl rfl (by decide)

/-- Counterexample to C1 as stated: the valid pair of an array containing
a scripting function and the array tag (not the function-reference tag)
does not round-trip to the structurally identical value: the nested
function comes back as a wrapper around the allocated invocation token. -/
theorem marshal_roundtrip_not_structural :
    dynTag cexDyn = TypeTag.array ∧
    TypeTag.array ≠ TypeTag.funcRef ∧
    toNative cexDyn TypeTag.array 0 = .ok (.array (.cons (.funcRef ⟨0, 0⟩) .nil), 1) ∧
    toDynamic (.array (.cons (.funcRef ⟨0, 0⟩) .nil)) ≠ cexDyn := by
  refine ⟨rfl, by decide, rfl, ?_⟩
  intro h
  simp [toDynamic, toDynamicList, cexDyn] at h

/-- C7 (amended): the element-wise conversion is total and never recurses
past the fixed depth bound: a conversion that succeeds certifies the
input nesting stays within maxMarshalDepth, and every input whose tag
matches the expected tag but whose nesting exceeds the bound fails with
the depth-exceeded TypeError rather than recursing further. -/
theorem toNative_depth_bounded (v : DynamicValue) (tag : TypeTag) (ctr : Nat) :
    (dynTag v = tag → maxMarshalDepth < ddepth v →
      toNative v tag ctr = .error .depthExceeded) ∧
    (∀ n ctr2, toNative v tag ctr = .ok (n, ctr2) → ddepth v ≤ maxMarshalDepth) := by
  constructor
  · intro htag hd
    subst htag
    exact toNativeAux_deep v maxMarshalDepth ctr hd
  · intro n ctr2 h
    exact toNativeAux_ok_depth v maxMarshalDepth tag ctr n ctr2 h

set_option maxRecDepth 8000 in
/-- Witness for C7: a 66-deep array under the matching array tag exceeds
the bound of 64 and fails with the depth-exceeded error. -/
theorem toNative_depth_bounded_witness :
    toNative (deepDyn 65) TypeTag.array 0 = .error .depthExceeded :=
  (toNative_depth_bounded (deepDyn 65) TypeTag.array 0).1 rfl (by decide)

set_option maxRecDepth 8000 in
/-- Counterexample to C7 as stated: an input nested past the bound whose
top-level tag mismatches the expected tag fails with the mismatch
TypeError, not with the depth-exceeded error, because validation rejects
it before any deep recursion. -/
theorem toNative_mismatch_on_deep_input :
    maxMarshalDepth < ddepth (deepDyn 65) ∧
    toNative (deepDyn 65) TypeTag.number 0 = .error (.mismatch .number) ∧
    MarshalError.mismatch .number ≠ .depthExceeded := by
  refine ⟨by decide, rfl, by decide⟩

end Bridge
